import Mathlib

/-!
Verification of the rustc-perf benchmark/interpolation core.

Shallow embedding of:
  * `collector/src/lib.rs` (Commit, Patch, BenchmarkState, Run, RunId),
  * `site/src/load.rs` (the time-series interpolation pass in `InputData::new`,
    `fill_benchmark_data`, `fill_benchmark_runs`, `interpolate_stats`),
  * `collector/src/bin/rustc-perf-collector/execute.rs` (Profiler legality,
    `Benchmark::measure` iteration policy, `process_perf_stat_output`,
    `MeasureProcessor::process_output`),
  * `collector/src/execute/bencher.rs` (`BenchProcessor::process_output` retry cap).

Rust `f64` values are modelled by `FVal`: exact rationals for finite values plus
the special values `posInf`, `negInf`, `nan`, with the IEEE-754 special-value
rules for the operations that occur in the source. No rounding or overflow of
finite results is modelled, so the embedding is faithful only on computations
whose every step is exact in `f64`; the concrete evaluations below (small
integers and one division by zero) all are.
-/

/-- Model of an `f64` value: a finite rational, an infinity, or NaN. -/
inductive FVal
  | fin (q : ℚ)
  | posInf
  | negInf
  | nan
deriving DecidableEq, Repr

namespace FVal

/-- IEEE negation. -/
def neg : FVal → FVal
  | fin q => fin (-q)
  | posInf => negInf
  | negInf => posInf
  | nan => nan

/-- IEEE addition (exact on finite values; `+∞ + -∞ = NaN`). -/
def add : FVal → FVal → FVal
  | nan, _ => nan
  | _, nan => nan
  | fin a, fin b => fin (a + b)
  | fin _, posInf => posInf
  | fin _, negInf => negInf
  | posInf, fin _ => posInf
  | negInf, fin _ => negInf
  | posInf, posInf => posInf
  | negInf, negInf => negInf
  | posInf, negInf => nan
  | negInf, posInf => nan

/-- IEEE subtraction, as addition of the negation. -/
def sub (a b : FVal) : FVal := add a (neg b)

/-- IEEE multiplication (`±∞ * 0 = NaN`). -/
def mul : FVal → FVal → FVal
  | nan, _ => nan
  | _, nan => nan
  | fin a, fin b => fin (a * b)
  | fin a, posInf => if a = 0 then nan else if 0 < a then posInf else negInf
  | fin a, negInf => if a = 0 then nan else if 0 < a then negInf else posInf
  | posInf, fin b => if b = 0 then nan else if 0 < b then posInf else negInf
  | negInf, fin b => if b = 0 then nan else if 0 < b then negInf else posInf
  | posInf, posInf => posInf
  | posInf, negInf => negInf
  | negInf, posInf => negInf
  | negInf, negInf => posInf

/-- IEEE division. The zero divisor here always arises as the cast of a
nonnegative integer, i.e. as `+0.0`, so `q / 0` is `±∞` by the sign of `q`
and `0 / 0 = NaN`. -/
def div : FVal → FVal → FVal
  | nan, _ => nan
  | _, nan => nan
  | fin a, fin b =>
      if b = 0 then (if a = 0 then nan else if 0 < a then posInf else negInf)
      else fin (a / b)
  | fin _, posInf => fin 0
  | fin _, negInf => fin 0
  | posInf, fin b => if 0 ≤ b then posInf else negInf
  | negInf, fin b => if 0 ≤ b then negInf else posInf
  | posInf, _ => nan
  | negInf, _ => nan

/-- Whether the value is a finite number (not `±∞`, not NaN). -/
def isFinite : FVal → Bool
  | fin _ => true
  | _ => false

end FVal

/-- Source `collector/src/lib.rs` `Patch`: ordering index, display name, file path
(paths are modelled as plain strings). -/
structure Patch where
  index : Nat
  name : String
  path : String
deriving DecidableEq, Repr

/-- Rust `impl PartialEq for Patch`: equality is by `name` only. -/
def Patch.beqR (a b : Patch) : Bool := a.name == b.name

/-! Structural-recursion models of the Rust string operations the source uses
(`str::split`, `str::trim`, `str::starts_with`, `str::replace`, `str::lines`,
numeric parses). Lean's core counterparts are defined by well-founded
recursion, which proofs by `decide` cannot evaluate, so they are defined here
on the character list directly. -/

def splitOnCharAux (sep : Char) : List Char → List Char → List (List Char)
  | [], cur => [cur.reverse]
  | c :: rest, cur =>
      if c = sep then cur.reverse :: splitOnCharAux sep rest []
      else splitOnCharAux sep rest (c :: cur)

/-- Rust `str::split(sep)` for a one-character separator (always yields at
least one part; keeps empty parts). -/
def strSplitOnChar (s : String) (sep : Char) : List String :=
  (splitOnCharAux sep s.data []).map String.mk

/-- Rust `str::starts_with`. -/
def strStartsWith (s pre : String) : Bool := pre.data.isPrefixOf s.data

/-- Drop the first `n` characters. -/
def strDrop (s : String) (n : Nat) : String := ⟨s.data.drop n⟩

/-- Drop the last `n` characters (total, where Rust `String::truncate` on an
underflowing length would panic). -/
def strDropRight (s : String) (n : Nat) : String :=
  ⟨s.data.take (s.data.length - n)⟩

/-- Rust `str::trim` (ASCII whitespace, which is all the inputs contain). -/
def strTrim (s : String) : String :=
  ⟨((s.data.dropWhile Char.isWhitespace).reverse.dropWhile Char.isWhitespace).reverse⟩

def strLength (s : String) : Nat := s.data.length

def strIsEmpty (s : String) : Bool := s.data.isEmpty

/-- Fuel-indexed core of `str::replace`: leftmost, non-overlapping. -/
def replaceL (pat rep : List Char) : Nat → List Char → List Char
  | _, [] => []
  | 0, s => s
  | fuel + 1, c :: rest =>
      if pat.isPrefixOf (c :: rest) && !pat.isEmpty then
        rep ++ replaceL pat rep fuel ((c :: rest).drop pat.length)
      else c :: replaceL pat rep fuel rest

/-- Rust `str::replace` (the fuel `s.length` bounds the number of steps). -/
def strReplace (s pat rep : String) : String :=
  ⟨replaceL pat.data rep.data s.data.length s.data⟩

/-- Digit-string value, `none` on the empty string or a non-digit: the
fragment of Rust's `usize::from_str` the patch file names exercise. -/
def digitsVal? (s : String) : Option Nat :=
  if s.data.isEmpty then none
  else
    s.data.foldl (fun acc c =>
      match acc with
      | none => none
      | some n => if c.isDigit then some (n * 10 + (c.toNat - '0'.toNat)) else none)
      (some 0)

/-- Source `Patch::new`, on the file name of the patch file. Splits on `-`, parses the
leading index (a failed parse, which panics in the source, is `none` here),
joins the remaining parts with spaces, drops the trailing space, and removes
every occurrence of `.patch`. -/
def patchNew (fileName : String) : Option Patch :=
  match strSplitOnChar fileName '-' with
  | [] => none
  | first :: rest =>
    match digitsVal? first with
    | none => none
    | some index =>
      let joined := rest.foldl (fun acc part => acc ++ part ++ " ") ""
      let name := strReplace (strDropRight joined 1) ".patch" ""
      some { index := index, name := name, path := fileName }

/-- Source `collector/src/lib.rs` `BenchmarkState`. -/
inductive BenchmarkState
  | clean
  | nll
  | incrementalStart
  | incrementalClean
  | incrementalPatched (patch : Patch)
deriving DecidableEq, Repr

/-- Rust derived `PartialEq` for `BenchmarkState`, which uses the custom
name-only equality on the contained `Patch`. -/
def BenchmarkState.beqR : BenchmarkState → BenchmarkState → Bool
  | clean, clean => true
  | nll, nll => true
  | incrementalStart, incrementalStart => true
  | incrementalClean, incrementalClean => true
  | incrementalPatched p, incrementalPatched q => p.beqR q
  | _, _ => false

/-- Source `BenchmarkState::erase_path`: zero the patch index and clear the path, so
equivalent benchmark variants recorded at different times compare equal. -/
def BenchmarkState.erasePath : BenchmarkState → BenchmarkState
  | incrementalPatched p => incrementalPatched { p with index := 0, path := "" }
  | s => s

/-- Statistic identifier. Modelled from the spec: the site's collector version
has an interned `StatId` enum that is not under `src/`; the spec describes
statistics as keyed by name, so names are used directly. -/
abbrev StatId := String

/-- Association-list core of the statistic map. -/
abbrev StatList := List (StatId × FVal)

/-- Lookup of the first entry with the given name. -/
def statsGetL (l : StatList) (k : StatId) : Option FVal :=
  (l.find? (fun p => p.1 == k)).map (·.2)

/-- Map insert: replace the value if the key is present, else append. -/
def statsInsertL (l : StatList) (k : StatId) (v : FVal) : StatList :=
  if l.any (fun p => p.1 == k) then
    l.map (fun p => if p.1 == k then (k, v) else p)
  else l ++ [(k, v)]

/-- Modelled from the spec: `Stats`, the ordered statistic-name → value map of
the site's collector version (not under `src/`); it supports `new`, `insert`,
`iter`, name lookup, emptiness, and combination by summation. -/
structure Stats where
  toList : StatList
deriving DecidableEq, Repr

def Stats.new : Stats := ⟨[]⟩

def Stats.getStat (s : Stats) (k : StatId) : Option FVal := statsGetL s.toList k

def Stats.insertStat (s : Stats) (k : StatId) (v : FVal) : Stats :=
  ⟨statsInsertL s.toList k v⟩

def Stats.isEmpty (s : Stats) : Bool := s.toList.isEmpty

/-- Source `collector/src/lib.rs` `Run` (one completed measurement). -/
structure Run where
  stats : Stats
  check : Bool
  release : Bool
  state : BenchmarkState
deriving DecidableEq, Repr

/-- Source `collector/src/lib.rs` `RunId`: the classification with patch index/path
erased. -/
structure RunId where
  check : Bool
  release : Bool
  state : BenchmarkState
deriving DecidableEq, Repr

/-- Source `Run::id()`: erase the patch path before building the `RunId`. -/
def Run.id (r : Run) : RunId :=
  { check := r.check, release := r.release, state := r.state.erasePath }

/-- Rust `impl PartialEq for Run` (ignores `stats`; patch compared by name). -/
def Run.beqR (a b : Run) : Bool :=
  a.release == b.release && a.check == b.check && a.state.beqR b.state

/-- Rust `impl PartialEq<RunId> for Run`. -/
def Run.eqRunId (r : Run) (i : RunId) : Bool :=
  r.release == i.release && r.check == i.check && r.state.beqR i.state

/-- Rust derived `PartialEq` for `RunId` (patch compared by name). -/
def RunId.beqR (a b : RunId) : Bool :=
  a.check == b.check && a.release == b.release && a.state.beqR b.state

/-- Source `Run::get_stat`: first entry with the given statistic name. -/
def Run.getStat (r : Run) (k : StatId) : Option FVal := r.stats.getStat k

/-- Source `collector/src/lib.rs` `Date`, reduced to the calendar day, which is all
`Commit::is_try` inspects. -/
structure Date where
  year : Nat
  month : Nat
  day : Nat
deriving DecidableEq, Repr

/-- Source `collector/src/lib.rs` `Commit`. -/
structure Commit where
  sha : String
  date : Date
deriving DecidableEq, Repr

/-- Source `Commit::is_try`: the date equals the sentinel 2000-01-01. -/
def Commit.isTry (c : Commit) : Bool := c.date == ⟨2000, 1, 1⟩

/-- The `Benchmark` records of `site/src/load.rs` (a name plus its runs). -/
structure Benchmark where
  name : String
  runs : List Run
deriving DecidableEq, Repr

/-- Source `Result<Benchmark, String>` as stored per benchmark name in `CommitData`. -/
inductive BenchResult
  | ok (b : Benchmark)
  | err (msg : String)
deriving DecidableEq, Repr

abbrev BenchmarkName := String
abbrev Sha := String

/-- Source `collector/src/lib.rs` `CommitData` (the `triple` field is irrelevant to
the interpolation pass and omitted). The `BTreeMap` is modelled as an
association list with unique keys. -/
structure CommitData where
  commit : Commit
  benchmarks : List (BenchmarkName × BenchResult)
deriving DecidableEq, Repr

/-- Map lookup in a commit's benchmark table. -/
def lookupBench (l : List (BenchmarkName × BenchResult)) (k : BenchmarkName) :
    Option BenchResult :=
  (l.find? (fun p => p.1 == k)).map (·.2)

/-- Map insert (`BTreeMap::insert`): replace if present, else append. -/
def insertBench (l : List (BenchmarkName × BenchResult)) (k : BenchmarkName)
    (v : BenchResult) : List (BenchmarkName × BenchResult) :=
  if l.any (fun p => p.1 == k) then
    l.map (fun p => if p.1 == k then (k, v) else p)
  else l ++ [(k, v)]

/-! ## The interpolation pass of `site/src/load.rs` -/

/-- Source `site/src/load.rs` `Interpolation`: provenance of one fabricated value. -/
structure Interpolation where
  benchmark : BenchmarkName
  run : Option RunId
deriving DecidableEq, Repr

/-- The benchmark names appearing in the most recent 20 commits
(`InputData::new`, `current_benchmarks`). The source collects them into a
`HashSet`, whose iteration order is unspecified; the order of this list only
permutes the order of fills within one commit, never their content. -/
def currentBenchmarks (data : List CommitData) : List BenchmarkName :=
  ((data.reverse.take 20).flatMap (fun cd => cd.benchmarks.map (·.1))).dedup

/-- The `RunId`s known for a benchmark in the most recent 20 commits
(`InputData::new`, `known_runs`), taken from successful entries only. -/
def knownRuns (data : List CommitData) (name : BenchmarkName) : List RunId :=
  ((data.reverse.take 20).flatMap (fun cd =>
    cd.benchmarks.flatMap (fun p =>
      if p.1 == name then
        match p.2 with
        | .ok b => b.runs.map Run.id
        | .err _ => []
      else []))).dedup

/-- Whether a commit has a successful entry for the benchmark. -/
def isOkAt (cd : CommitData) (name : BenchmarkName) : Bool :=
  match lookupBench cd.benchmarks name with
  | some (.ok _) => true
  | _ => false

/-- Source `InputData::new`, `present_commits`: the ascending list of indices at which
the benchmark has a successful entry. -/
def presentCommits (data : List CommitData) (name : BenchmarkName) : List Nat :=
  data.enum.filterMap (fun p => if isOkAt p.2 name then some p.1 else none)

/-- Per-benchmark map from `RunId` to the (index, run) last inserted for it.
`HashMap` equality on `RunId` is the name-only `RunId.beqR`. -/
abbrev RunMap := List (RunId × (Nat × Run))

abbrev BenchMap := List (BenchmarkName × RunMap)

def runMapInsert (m : RunMap) (k : RunId) (v : Nat × Run) : RunMap :=
  if m.any (fun p => RunId.beqR p.1 k) then
    m.map (fun p => if RunId.beqR p.1 k then (k, v) else p)
  else m ++ [(k, v)]

def runMapGet (m : RunMap) (k : RunId) : Option (Nat × Run) :=
  (m.find? (fun p => RunId.beqR p.1 k)).map (·.2)

def benchMapGet (m : BenchMap) (name : BenchmarkName) : Option RunMap :=
  (m.find? (fun p => p.1 == name)).map (·.2)

/-- Source `HashMap::entry(name).or_insert_with(HashMap::new)` followed by inner
inserts, as one update. -/
def benchMapUpdate (m : BenchMap) (name : BenchmarkName) (f : RunMap → RunMap) :
    BenchMap :=
  if m.any (fun p => p.1 == name) then
    m.map (fun p => if p.1 == name then (p.1, f p.2) else p)
  else m ++ [(name, f [])]

/-- One step of the `last_seen` scan in `InputData::new`: record every run of
every successful benchmark of the commit at the given index. -/
def scanStep (st : BenchMap) (icd : Nat × CommitData) : BenchMap :=
  icd.2.benchmarks.foldl (fun st p =>
    match p.2 with
    | .ok bench =>
        benchMapUpdate st p.1 (fun rm =>
          bench.runs.foldl (fun rm run => runMapInsert rm run.id (icd.1, run)) rm)
    | .err _ => st) st

/-- Source `InputData::new`, `last_run`: after the forward scan, entry `i` maps each
(benchmark, run id) to the latest occurrence at index `≤ i`. -/
def lastRunMaps (data : List CommitData) : List BenchMap :=
  (data.enum.foldl (fun (acc : BenchMap × List BenchMap) icd =>
    let st := scanStep acc.1 icd
    (st, acc.2 ++ [st])) ([], [])).2

/-- Source `InputData::new`, `next_run`: the backward scan, then reversed, so entry
`i` maps each (benchmark, run id) to the earliest occurrence at index `≥ i`. -/
def nextRunMaps (data : List CommitData) : List BenchMap :=
  ((data.enum.reverse.foldl (fun (acc : BenchMap × List BenchMap) icd =>
    let st := scanStep acc.1 icd
    (st, acc.2 ++ [st])) ([], [])).2).reverse

/-- The interpolated value of one statistic:
`slope * from_start + start` with `slope = (end - start) / distance`, in
`f64` arithmetic, `distance` and `from_start` cast from `usize`. -/
def interpValue (sv ev : FVal) (distance fromStart : Nat) : FVal :=
  FVal.add
    (FVal.mul (FVal.div (FVal.sub ev sv) (FVal.fin (distance : ℚ)))
      (FVal.fin (fromStart : ℚ)))
    sv

/-- The loop body of `interpolate_stats`: process one `(stat, value)` pair of
the start run, inserting the interpolated value when the end run has the
statistic too. -/
def interpStatStep (erun : Run) (distance fromStart : Nat) (acc : Stats)
    (p : StatId × FVal) : Stats :=
  match erun.getStat p.1 with
  | some estat => acc.insertStat p.1 (interpValue p.2 estat distance fromStart)
  | none => acc

/-- Source `site/src/load.rs` `interpolate_stats`: for every statistic of the start
run that the end run also has, `value = slope * from_start + start`, with
`slope = (end - start) / distance` computed in `f64`. -/
def interpolateStats (srun erun : Run) (distance fromStart : Nat) : Stats :=
  srun.stats.toList.foldl (interpStatStep erun distance fromStart) Stats.new

/-- Source `site/src/load.rs` `fill_benchmark_runs`: fill each missing `RunId` of a
benchmark that exists at this commit, searching neighbors through the
precomputed last-seen/next-seen maps. Note the middle case's
`distance = (commit_idx - start - 1) + (end - commit_idx - 1)` and
`from_start = commit_idx - start - 1`, taken verbatim from the source (natural
subtraction matches `usize` wherever `start < commit_idx < end`, which the
source's `assert_ne!`s guarantee for reachable states). The source's
`(None, None)` arm is `unreachable!`; it is modelled as a no-op. -/
def fillRunStep (commitIdx : Nat) (commit : Commit) (lm nm : List BenchMap)
    (acc : Benchmark × List (Sha × Interpolation)) (missingRun : RunId) :
    Benchmark × List (Sha × Interpolation) :=
  let bench := acc.1
  let start := (benchMapGet (lm.getD commitIdx []) bench.name).bind
    (fun rm => runMapGet rm missingRun)
  let stop := (benchMapGet (nm.getD commitIdx []) bench.name).bind
    (fun rm => runMapGet rm missingRun)
  match start, stop with
  | some s, some e =>
      let distance := (commitIdx - s.1 - 1) + (e.1 - commitIdx - 1)
      let fromStart := commitIdx - s.1 - 1
      let irun := { s.2 with stats := interpolateStats s.2 e.2 distance fromStart }
      ({ bench with runs := bench.runs ++ [irun] },
        acc.2 ++ [(commit.sha, ⟨bench.name, some missingRun⟩)])
  | some s, none =>
      ({ bench with runs := bench.runs ++ [s.2] },
        acc.2 ++ [(commit.sha, ⟨bench.name, some missingRun⟩)])
  | none, some e =>
      ({ bench with runs := bench.runs ++ [e.2] },
        acc.2 ++ [(commit.sha, ⟨bench.name, some missingRun⟩)])
  | none, none => acc

def fillBenchmarkRuns (benchmark : Benchmark) (missing : List RunId)
    (commitIdx : Nat) (commit : Commit) (lm nm : List BenchMap) :
    Benchmark × List (Sha × Interpolation) :=
  missing.foldl (fillRunStep commitIdx commit lm nm) (benchmark, [])

/-- Successful benchmark entry at an index of the original dataset, used by
`fill_benchmark_data` (where it is an index+unwrap guaranteed by
`present_commits`). -/
def benchAt (data : List CommitData) (i : Nat) (name : BenchmarkName) :
    Option Benchmark :=
  match data.get? i with
  | some cd =>
      match lookupBench cd.benchmarks name with
      | some (.ok b) => some b
      | _ => none
  | none => none

/-- Source `site/src/load.rs` `fill_benchmark_data`: fill a benchmark missing at a
commit from its nearest present neighbors; `distance = end - start`,
`from_start = commit_idx - start`. Returns the fabricated run list (if any)
and the provenance records pushed. -/
def fillBenchmarkData (name : BenchmarkName) (commitIdx : Nat) (commit : Commit)
    (data : List CommitData) (present : List Nat) :
    Option (List Run) × List (Sha × Interpolation) :=
  let startIdx := (present.filter (fun idx => idx ≤ commitIdx)).getLast?
  let stopIdx := ((present.reverse.filter (fun idx => commitIdx ≤ idx)).getLast?)
  let start := startIdx.bind (fun i => (benchAt data i name).map (fun b => (i, b)))
  let stop := stopIdx.bind (fun i => (benchAt data i name).map (fun b => (i, b)))
  match start, stop with
  | some s, some e =>
      let distance := e.1 - s.1
      let fromStart := commitIdx - s.1
      let interpolatedRuns := s.2.runs.flatMap (fun srun =>
        e.2.runs.filterMap (fun erun =>
          if Run.beqR srun erun then
            some { srun with stats := interpolateStats srun erun distance fromStart }
          else none))
      (some interpolatedRuns, [(commit.sha, ⟨name, none⟩)])
  | some s, none => (some s.2.runs, [(commit.sha, ⟨name, none⟩)])
  | none, some e => (some e.2.runs, [(commit.sha, ⟨name, none⟩)])
  | none, none => (none, [])

/-- Step 1 of the per-benchmark loop body in `InputData::new`: when the
benchmark did not run (or did not run successfully) at this commit, fill it
wholesale through `fill_benchmark_data`. -/
def interpNameStep1 (data : List CommitData) (i : Nat) (cd : CommitData)
    (name : BenchmarkName) : CommitData × List (Sha × Interpolation) :=
  match lookupBench cd.benchmarks name with
  | some (.ok _) => (cd, [])
  | _ =>
    match fillBenchmarkData name i cd.commit data (presentCommits data name) with
    | (some runs, recs) =>
        ({ cd with benchmarks :=
            insertBench cd.benchmarks name (.ok ⟨name, runs⟩) }, recs)
    | (none, recs) => (cd, recs)

/-- Step 2 of the per-benchmark loop body: the benchmark exists (possibly just
filled) but may be missing individual runs relative to `known_runs`; fill them
through `fill_benchmark_runs`. (A benchmark name absent from `known_runs` has
`knownRuns data name = []`, hence no missing runs — exactly the source's skip
when `known_runs.get` is `None`.) -/
def interpNameStep2 (data : List CommitData) (lm nm : List BenchMap) (i : Nat)
    (s1 : CommitData × List (Sha × Interpolation)) (name : BenchmarkName) :
    CommitData × List (Sha × Interpolation) :=
  match lookupBench s1.1.benchmarks name with
  | some (.ok bench) =>
      let missing := (knownRuns data name).filter
        (fun rid => !(bench.runs.any (fun r => Run.eqRunId r rid)))
      if missing.isEmpty then s1
      else
        let fr := fillBenchmarkRuns bench missing i s1.1.commit lm nm
        ({ s1.1 with benchmarks := insertBench s1.1.benchmarks name (.ok fr.1) },
          s1.2 ++ fr.2)
  | _ => s1

/-- One benchmark name processed at one commit (the body of the double loop in
`InputData::new`): skip try commits; fill a wholly-missing benchmark; then fill
individually missing runs of an existing benchmark. Returns the updated commit
entry and the provenance records pushed for this commit. -/
def interpName (data : List CommitData) (lm nm : List BenchMap) (i : Nat)
    (cd : CommitData) (name : BenchmarkName) :
    CommitData × List (Sha × Interpolation) :=
  if cd.commit.isTry then (cd, [])
  else interpNameStep2 data lm nm i (interpNameStep1 data i cd name) name

/-- All current benchmark names processed at one commit. -/
def interpCommit (data : List CommitData) (lm nm : List BenchMap)
    (names : List BenchmarkName) (i : Nat) (cd : CommitData) :
    CommitData × List (Sha × Interpolation) :=
  names.foldl (fun st name =>
    let r := interpName data lm nm i st.1 name
    (r.1, st.2 ++ r.2)) (cd, [])

/-- The full interpolation pass of `InputData::new`: the interpolated dataset
plus the flat list of provenance records (the source groups them into a
`HashMap<Sha, Vec<Interpolation>>` and drops empty groups; keys and per-key
order are identical). -/
def interpolate (data : List CommitData) : List CommitData × List (Sha × Interpolation) :=
  let names := currentBenchmarks data
  let lm := lastRunMaps data
  let nm := nextRunMaps data
  data.enum.foldl (fun st icd =>
    let r := interpCommit data lm nm names icd.1 icd.2
    (st.1 ++ [r.1], st.2 ++ r.2)) ([], [])

/-- Whether a commit's entry for a benchmark is successful and covers every
run id known for that benchmark in the recency window. -/
def coversKnown (data : List CommitData) (cd : CommitData)
    (name : BenchmarkName) : Bool :=
  match lookupBench cd.benchmarks name with
  | some (.ok b) =>
      (knownRuns data name).all (fun rid => b.runs.any (fun r => Run.eqRunId r rid))
  | _ => false

/-- A fully dense dataset: every commit has a successful entry covering all
known runs, for every benchmark of the recency window. -/
def denseInput (data : List CommitData) : Bool :=
  data.all (fun cd => (currentBenchmarks data).all (coversKnown data cd))

/-! ## `collector/src/bin/rustc-perf-collector/execute.rs` -/

/-- Source `BuildKind` (from the collector binary). -/
inductive BuildKind
  | check
  | debug
  | opt
deriving DecidableEq, Repr

/-- Source `RunKind` (from the collector binary). -/
inductive RunKind
  | full
  | incrFull
  | incrUnchanged
  | incrPatched
deriving DecidableEq, Repr

/-- Source `execute.rs` `Profiler`. -/
inductive Profiler
  | perfStat
  | perfStatSelfProfile
  | selfProfile
  | timePasses
  | perfRecord
  | oprofile
  | cachegrind
  | callgrind
  | dhat
  | massif
  | eprintlnProf
  | llvmLines
deriving DecidableEq, Repr

/-- Source `Profiler::subcommand`. -/
def Profiler.subcommand : Profiler → String
  | .llvmLines => "llvm-lines"
  | _ => "rustc"

/-- Source `Profiler::is_build_kind_allowed`: only `llvm-lines` is restricted, and
only for `Check` builds. -/
def Profiler.isBuildKindAllowed (p : Profiler) (bk : BuildKind) : Bool :=
  match p with
  | .llvmLines => bk != BuildKind.check
  | _ => true

/-- Source `Profiler::is_run_kind_allowed`: only `llvm-lines` is restricted, to the
`Full` run kind. -/
def Profiler.isRunKindAllowed (p : Profiler) (rk : RunKind) : Bool :=
  match p with
  | .llvmLines => rk == RunKind.full
  | _ => true

/-- Outcome of `CargoProcess::run_rustc` up to the first spawn: either a
legality failure (returned before any command is built or run) or a launch,
carrying the commands spawned for the leaf. -/
inductive LeafResult
  | failed (msg : String)
  | launched (spawned : List String)
deriving DecidableEq, Repr

def LeafResult.isFailed : LeafResult → Bool
  | .failed _ => true
  | _ => false

/-- Processes spawned by the leaf (empty when it failed up front). -/
def LeafResult.spawned : LeafResult → List String
  | .failed _ => []
  | .launched cmds => cmds

/-- The head of `CargoProcess::run_rustc` when a processor is attached: the
two legality checks run before `base_command`/`get_pkgid` ever spawn
anything; on success cargo is invoked through the profiler's subcommand. -/
def runRustcLeaf (p : Profiler) (bk : BuildKind) (rk : RunKind) : LeafResult :=
  if !(p.isBuildKindAllowed bk) then
    .failed "this profiler doesn't support these builds"
  else if !(p.isRunKindAllowed rk) then
    .failed "this profiler doesn't support these runs"
  else
    .launched ["cargo pkgid", "cargo " ++ p.subcommand]

/-- Source `execute.rs` `default_runs`. -/
def defaultRuns : Nat := 3

/-- Source `execute.rs` `BenchmarkConfig` (the per-benchmark `perf-config.json`). -/
structure BenchmarkConfig where
  cargo_opts : Option String
  cargo_rustc_opts : Option String
  cargo_toml : Option String
  disabled : Bool
  runs : Nat
  supports_stable : Bool
deriving DecidableEq, Repr

/-- Source `impl Default for BenchmarkConfig`. -/
def defaultBenchmarkConfig : BenchmarkConfig :=
  { cargo_opts := none
    cargo_rustc_opts := none
    cargo_toml := none
    disabled := false
    runs := defaultRuns
    supports_stable := false }

/-- Source `Benchmark::measure`: the effective iteration count after
`iterations = cmp::min(iterations, self.config.runs)`. -/
def measureEffectiveIterations (requested : Nat) (config : BenchmarkConfig) : Nat :=
  min requested config.runs

/-- Source `Benchmark::measure`: the loop bound `cmp::max(iterations, 2)` applied to
the already-clamped iteration count. -/
def measureLoopBound (requested : Nat) (config : BenchmarkConfig) : Nat :=
  max (measureEffectiveIterations requested config) 2

/-- Source `Benchmark::measure`: number of timing iterations actually executed for
one build kind, accounting for the `i == 1` early break when a single
iteration was requested and the processor does not need a second pass. -/
def measureIterationsRun (requested : Nat) (config : BenchmarkConfig)
    (different : Bool) : Nat :=
  let iterations := measureEffectiveIterations requested config
  if iterations = 1 ∧ different = false then 1 else max iterations 2

/-! ### `process_perf_stat_output` -/

/-- Result of `process_perf_stat_output`, with the two panics it can take
(`panicPct` for a partially-active counter) distinguished from the returned
errors of `DeserializeStatError`. The self-profile payload is kept as the raw
line suffix. -/
inductive PerfOut
  | ok (stats : Stats) (profilePayload : Option String)
  | noOutput
  | parseError (cnt : String)
  | panicPct (name pct : String)
deriving DecidableEq, Repr

/-- The fatal outcomes: a panic or a returned `ParseError` (which the caller
panics on). `ok` and the retryable `noOutput` are not fatal. -/
def PerfOut.isFatalOutcome : PerfOut → Bool
  | .ok _ _ => false
  | .noOutput => false
  | .parseError _ => true
  | .panicPct _ _ => true

/-- Whether the function itself panicked. -/
def PerfOut.isPanic : PerfOut → Bool
  | .panicPct _ _ => true
  | _ => false

/-- The decimal fragment of Rust's `f64::from_str` (optional sign, integer
and/or fractional digits), parsed exactly; strings outside this fragment
(exponents, `inf`, `NaN`) do not occur in the outputs considered here. -/
def parseFloatQ? (s : String) : Option ℚ :=
  let sign := strStartsWith s "-"
  let body := if strStartsWith s "-" || strStartsWith s "+" then strDrop s 1 else s
  match strSplitOnChar body '.' with
  | [intPart] => (digitsVal? intPart).map (fun n => if sign then -(n : ℚ) else (n : ℚ))
  | [intPart, fracPart] =>
      if strIsEmpty intPart && strIsEmpty fracPart then none
      else
        let ip := if strIsEmpty intPart then some 0 else digitsVal? intPart
        let fp := if strIsEmpty fracPart then some 0 else digitsVal? fracPart
        match ip, fp with
        | some i, some f =>
            let v : ℚ := (i : ℚ) + (f : ℚ) / ((10 ^ strLength fracPart : ℕ) : ℚ)
            some (if sign then -v else v)
        | _, _ => none
  | _ => none

/-- Source `str::lines`: split on `\n`, drop a final empty segment, strip a trailing
`\r` from each line. -/
def rustLines (s : String) : List String :=
  let l := strSplitOnChar s '\n'
  let l := if l.getLast? = some "" then l.dropLast else l
  l.map (fun x => if x.data.getLast? = some '\r' then strDropRight x 1 else x)

/-- One line of `process_perf_stat_output`: either an early exit (left) or the
updated accumulator (right). Mirrors the source order: self-profile marker
first; then five `;`-fields (fewer: `get!` warns and skips); the
`<not supported>`/empty-count skip; the `100.` percentage check (panic);
finally the float parse (`?`-returned `ParseError`). -/
def perfStatLine (acc : Stats × Option String) (line : String) :
    PerfOut ⊕ (Stats × Option String) :=
  if strStartsWith line "!self-profile-output:" then
    .inr (acc.1, some (strDrop line (strLength "!self-profile-output:")))
  else
    match (strSplitOnChar line ';').map strTrim with
    | cnt :: _unit :: name :: _time :: pct :: _rest =>
        if cnt == "<not supported>" || strLength cnt == 0 then .inr acc
        else if !(strStartsWith pct "100.") then .inl (.panicPct name pct)
        else
          match parseFloatQ? cnt with
          | some v => .inr (acc.1.insertStat name (FVal.fin v), acc.2)
          | none => .inl (.parseError cnt)
    | _ => .inr acc

/-- Fold of `perfStatLine` over the lines, propagating early exits. -/
def processPerfStatLines : List String → (Stats × Option String) →
    PerfOut ⊕ (Stats × Option String)
  | [], acc => .inr acc
  | l :: ls, acc =>
      match perfStatLine acc l with
      | .inl r => .inl r
      | .inr acc2 => processPerfStatLines ls acc2

/-- Source `execute.rs` `process_perf_stat_output` on the stdout text: panics and
`ParseError` exit early; otherwise an empty statistic map is the retryable
`NoOutput` and a non-empty one is returned. -/
def processPerfStatOutput (stdout : String) : PerfOut :=
  match processPerfStatLines (rustLines stdout) (Stats.new, none) with
  | .inl r => r
  | .inr (stats, prof) => if stats.isEmpty then .noOutput else .ok stats prof

/-- A counter-statistics line that must trip the percentage panic when
reached: not a self-profile marker, at least five `;`-fields, a count that is
neither `<not supported>` nor empty, and a percentage not starting `100.`. -/
def isCounterPanicLine (line : String) : Bool :=
  !(strStartsWith line "!self-profile-output:") &&
  match (strSplitOnChar line ';').map strTrim with
  | cnt :: _unit :: _name :: _time :: pct :: _rest =>
      cnt != "<not supported>" && strLength cnt != 0 && !(strStartsWith pct "100.")
  | _ => false

/-! ### Output classification by the two processors -/

/-- Source `execute.rs` `Retry`. -/
inductive Retry
  | no
  | yes
deriving DecidableEq, Repr

/-- The statistic-parsing outcome a processor reacts to (`Ok` vs the
`DeserializeStatError` variants). -/
inductive StatOutcome
  | parsedOk
  | noOutput
  | parseErr (cnt : String)
deriving DecidableEq, Repr

/-- A processor's reaction to one leaf execution's output. -/
inductive ProcResult
  | accepted
  | retry
  | fatal (msg : String)
deriving DecidableEq, Repr

/-- Source `MeasureProcessor::process_output` (execute.rs): `NoOutput` is always
retried — the processor keeps no retry counter — and `ParseError` panics. -/
def measureClassify : StatOutcome → ProcResult
  | .parsedOk => .accepted
  | .noOutput => .retry
  | .parseErr c => .fatal ("process_perf_stat_output failed: " ++ c)

/-- Whether `n` consecutive `NoOutput` results ever make
`MeasureProcessor::process_output` answer something other than retry. -/
def measureRetriesExhausted (n : Nat) : Bool :=
  (List.replicate n StatOutcome.noOutput).any
    (fun o => measureClassify o != ProcResult.retry)

/-- Source `BenchProcessor::process_output` (bencher.rs): `NoOutput` is retried while
`self.tries < 5`, incrementing the counter; at 5 it panics. Returns the
classification plus the updated `tries` counter. -/
def benchClassify (tries : Nat) : StatOutcome → ProcResult × Nat
  | .parsedOk => (.accepted, tries)
  | .noOutput =>
      if tries < 5 then (.retry, tries + 1)
      else (.fatal "failed to collect statistics after 5 tries", tries)
  | .parseErr c => (.fatal ("process_perf_stat_output failed: " ++ c), tries)

/-! ## Concrete scenario data -/

-- Batteries marks the rational operations `@[irreducible]`; restore the
-- default reducibility locally so concrete runs of the model evaluate.
attribute [local semireducible] Rat.add Rat.mul Rat.sub Rat.inv

def demoDate : Date := ⟨2019, 5, 1⟩

/-- A `Scenario::Full` (state `Clean`) debug run with a single `wall-time`
statistic. -/
def demoRunFull (v : ℚ) : Run :=
  { stats := ⟨[("wall-time", FVal.fin v)]⟩, check := false, release := false,
    state := BenchmarkState.clean }

/-- Three commits; benchmark `foo` succeeds only at commits 1 and 3
(`wall-time` 10 and 30) and is entirely missing at commit 2. -/
def demoData : List CommitData :=
  [⟨⟨"sha1", demoDate⟩, [("foo", .ok ⟨"foo", [demoRunFull 10]⟩)]⟩,
   ⟨⟨"sha2", demoDate⟩, []⟩,
   ⟨⟨"sha3", demoDate⟩, [("foo", .ok ⟨"foo", [demoRunFull 30]⟩)]⟩]

/-- A `Check`-build `Full` run, whose `RunId` differs from `demoRunFull`'s. -/
def demoRunCheck (v : ℚ) : Run :=
  { stats := ⟨[("wall-time", FVal.fin v)]⟩, check := true, release := false,
    state := BenchmarkState.clean }

/-- Three commits where `foo` succeeds everywhere but the `demoRunFull` run id
is missing at commit 2 (which has only the check run): a run-level hole whose
neighbors sit at the adjacent indices 0 and 2. -/
def cexData : List CommitData :=
  [⟨⟨"sha1", demoDate⟩, [("foo", .ok ⟨"foo", [demoRunFull 10]⟩)]⟩,
   ⟨⟨"sha2", demoDate⟩, [("foo", .ok ⟨"foo", [demoRunCheck 99]⟩)]⟩,
   ⟨⟨"sha3", demoDate⟩, [("foo", .ok ⟨"foo", [demoRunFull 30]⟩)]⟩]

/-- The `wall-time` value of the run fabricated at commit 2 of `cexData` by
run-level filling (appended after the measured check run). -/
def cexFilledWallTime : Option FVal :=
  ((interpolate cexData).1.get? 1).bind (fun cd =>
    match lookupBench cd.benchmarks "foo" with
    | some (.ok b) => (b.runs.get? 1).bind (fun r => r.getStat "wall-time")
    | _ => none)

/-- A dataset with one non-try commit and one try commit, distinct shas. -/
def tryDemoData : List CommitData :=
  [⟨⟨"shaA", demoDate⟩, [("foo", .ok ⟨"foo", [demoRunFull 10]⟩)]⟩,
   ⟨⟨"shaB", ⟨2000, 1, 1⟩⟩, []⟩]

/-- A fully dense single-commit dataset. -/
def denseDemoData : List CommitData :=
  [⟨⟨"shaA", demoDate⟩, [("foo", .ok ⟨"foo", [demoRunFull 10]⟩)]⟩]

/-- Counter-statistics output whose first line has an unparsable count and
whose second line has a partially-active percentage. -/
def badPctAfterBadFloat : String :=
  "abc;u;instructions;t;100.0\n5;u;cycles;t;50.0"

/-! ## Claim theorems -/

set_option maxRecDepth 8192

/-- C1: with benchmark `foo` succeeding only at commits 1 and 3 (`wall-time`
10.0 and 30.0) and entirely missing at commit 2, the interpolation pass fills
commit 2's `foo` entry with a single run of `wall-time` 20.0 and records
exactly one `Interpolation`, keyed by commit 2's sha, carrying `foo` with
`run = None`. -/
theorem c1_three_commit_interpolation :
    (interpolate demoData).2 = [("sha2", ⟨"foo", none⟩)] ∧
    ((interpolate demoData).1.get? 1).map (fun cd => lookupBench cd.benchmarks "foo")
      = some (some (.ok ⟨"foo", [demoRunFull 20]⟩)) := by decide

/-- C6: `Patch::new` on `"0-println.patch"` and `"8-println.patch"` yields
patches named `"println"` that compare equal under the name-only `PartialEq`,
and wrapping them in `IncrementalPatched` yields equal `RunId`s via `Run::id`
(which erases the ordering index and the file path). -/
theorem c6_patch_identity_roundtrip :
    patchNew "0-println.patch" = some ⟨0, "println", "0-println.patch"⟩ ∧
    patchNew "8-println.patch" = some ⟨8, "println", "8-println.patch"⟩ ∧
    Patch.beqR ⟨0, "println", "0-println.patch"⟩ ⟨8, "println", "8-println.patch"⟩ = true ∧
    Run.id { stats := Stats.new, check := false, release := false,
             state := BenchmarkState.incrementalPatched ⟨0, "println", "0-println.patch"⟩ }
      = Run.id { stats := Stats.new, check := false, release := false,
                 state := BenchmarkState.incrementalPatched ⟨8, "println", "8-println.patch"⟩ } ∧
    RunId.beqR
      (Run.id { stats := Stats.new, check := false, release := false,
                state := BenchmarkState.incrementalPatched ⟨0, "println", "0-println.patch"⟩ })
      (Run.id { stats := Stats.new, check := false, release := false,
                state := BenchmarkState.incrementalPatched ⟨8, "println", "8-println.patch"⟩ })
      = true := by decide

/-- C7: the only combinations rejected by the tool legality rules are
`llvm-lines` with a `Check` build and `llvm-lines` with a non-`Full` run kind,
and every such combination makes `run_rustc` fail with a descriptive error
before spawning any process for the leaf. -/
theorem c7_profiler_legality (p : Profiler) (bk : BuildKind) (rk : RunKind) :
    (p.isBuildKindAllowed bk = false ↔ p = Profiler.llvmLines ∧ bk = BuildKind.check) ∧
    (p.isRunKindAllowed rk = false ↔ p = Profiler.llvmLines ∧ rk ≠ RunKind.full) ∧
    ((p.isBuildKindAllowed bk = false ∨ p.isRunKindAllowed rk = false) →
      (runRustcLeaf p bk rk).isFailed = true ∧ (runRustcLeaf p bk rk).spawned = []) := by
  cases p <;> cases bk <;> cases rk <;> exact (by decide)

/-- C7 witness: `llvm-lines` with a `Check` build fails without spawning. -/
theorem c7_witness :
    (Profiler.llvmLines.isBuildKindAllowed BuildKind.check = false ∨
      Profiler.llvmLines.isRunKindAllowed RunKind.full = false) ∧
    (runRustcLeaf Profiler.llvmLines BuildKind.check RunKind.full).isFailed = true ∧
    (runRustcLeaf Profiler.llvmLines BuildKind.check RunKind.full).spawned = [] :=
  ⟨by decide,
   (c7_profiler_legality Profiler.llvmLines BuildKind.check RunKind.full).2.2 (by decide)⟩

/-- C5 (amended): on a `NoOutput` parse, `BenchProcessor` (bencher.rs) retries
while its `tries` counter is below 5, incrementing it, and panics once the
counter reaches 5; `MeasureProcessor` (execute.rs) keeps no counter and always
answers retry. -/
theorem c5_retry_policy (tries : Nat) :
    (tries < 5 → benchClassify tries StatOutcome.noOutput = (ProcResult.retry, tries + 1)) ∧
    (5 ≤ tries → (benchClassify tries StatOutcome.noOutput).1
        = ProcResult.fatal "failed to collect statistics after 5 tries") ∧
    measureClassify StatOutcome.noOutput = ProcResult.retry := by
  refine ⟨fun h => ?_, fun h => ?_, rfl⟩
  · simp [benchClassify, h]
  · simp [benchClassify, Nat.not_lt.mpr h]

/-- C5 witness: the cap at concrete counters 3 (retries) and 7 (fatal). -/
theorem c5_witness :
    (3 < 5 ∧ benchClassify 3 StatOutcome.noOutput = (ProcResult.retry, 4)) ∧
    (5 ≤ 7 ∧ (benchClassify 7 StatOutcome.noOutput).1
        = ProcResult.fatal "failed to collect statistics after 5 tries") ∧
    measureClassify StatOutcome.noOutput = ProcResult.retry :=
  ⟨⟨by decide, (c5_retry_policy 3).1 (by decide)⟩,
   ⟨by decide, (c5_retry_policy 7).2.1 (by decide)⟩,
   (c5_retry_policy 0).2.2⟩

/-- C5 counterexample: `MeasureProcessor` — one of the two cited measurement
processors — never escalates: six consecutive `NoOutput` failures are all
classified retry, contradicting the claimed escalation to fatal beyond the
5-attempt cap. -/
theorem c5_counterexample :
    measureRetriesExhausted 6 = false ∧
    measureClassify StatOutcome.noOutput = ProcResult.retry := by decide

/-- C10: `Benchmark::measure` clamps the requested iteration count to the
per-benchmark configured `runs` (default 3) before the at-least-two-iterations
rule `max(iterations, 2)` is applied; requests above the configured value
behave exactly like a request for the configured value. -/
theorem c10_measure_iteration_clamp (requested : Nat) (config : BenchmarkConfig)
    (different : Bool) :
    measureLoopBound requested config = max (min requested config.runs) 2 ∧
    defaultBenchmarkConfig.runs = 3 ∧
    (config.runs ≤ requested →
      measureEffectiveIterations requested config = config.runs ∧
      measureIterationsRun requested config different
        = measureIterationsRun config.runs config different) := by
  refine ⟨rfl, rfl, fun h => ?_⟩
  have hmin : min requested config.runs = config.runs := min_eq_right h
  refine ⟨hmin, ?_⟩
  unfold measureIterationsRun measureEffectiveIterations
  rw [hmin, min_self]

/-- C10 witness: requesting 10 iterations under the default config (runs = 3)
behaves exactly like requesting 3. -/
theorem c10_witness :
    defaultBenchmarkConfig.runs ≤ 10 ∧
    measureEffectiveIterations 10 defaultBenchmarkConfig = defaultBenchmarkConfig.runs ∧
    measureIterationsRun 10 defaultBenchmarkConfig false
      = measureIterationsRun defaultBenchmarkConfig.runs defaultBenchmarkConfig false :=
  ⟨by decide,
   ((c10_measure_iteration_clamp 10 defaultBenchmarkConfig false).2.2 (by decide)).1,
   ((c10_measure_iteration_clamp 10 defaultBenchmarkConfig false).2.2 (by decide)).2⟩

/-- C2 counterexample: in `cexData` the run-level hole at commit 2 has
neighbors at indices 0 and 2 with `wall-time` 10 and 30; the claimed formula
(`distance = end − start = 2`, `from_start = 1`) predicts 20, but the fill
produced by the code is NaN (its distance `(1−0−1)+(2−1−1) = 0` makes the
slope infinite and `∞ * 0 = NaN`). -/
theorem c2_counterexample :
    cexFilledWallTime = some FVal.nan ∧ FVal.nan ≠ FVal.fin 20 := by decide

/-- C3: the code evaluated at the failing input. In `cexData` the run-level
hole at commit 1 has both a start and an end neighbor (wall-time 10 and 30 at
the adjacent indices 0 and 2), yet the fabricated data point is NaN — the
code's `distance = (1−0−1)+(2−1−1) = 0` divides by zero — so the value is not
finite and lies in no closed interval `[min(start, end), max(start, end)]`,
against the spec's stated boundedness. The NaN chain (`20.0/0.0 = +∞`,
`∞ · 0 = NaN`) is exact IEEE-754 behavior. -/
theorem c3_counterexample :
    cexFilledWallTime = some FVal.nan ∧ FVal.isFinite FVal.nan = false := by decide

/-! ### C4: `process_perf_stat_output` on partially-active counters -/

/-- Any early exit of `perfStatLine` is a fatal outcome (a percentage panic or
a `ParseError`). -/
lemma perfStatLine_inl_fatal (acc : Stats × Option String) (line : String)
    (r : PerfOut) (h : perfStatLine acc line = .inl r) : r.isFatalOutcome = true := by
  unfold perfStatLine at h
  repeat' split at h
  all_goals (cases h <;> rfl)

/-- A qualifying counter line makes `perfStatLine` exit with the percentage
panic. -/
lemma perfStatLine_panics (acc : Stats × Option String) (line : String)
    (h : isCounterPanicLine line = true) :
    ∃ n p, perfStatLine acc line = Sum.inl (PerfOut.panicPct n p) := by
  unfold isCounterPanicLine at h
  rw [Bool.and_eq_true] at h
  obtain ⟨hm', hrest⟩ := h
  have hm : strStartsWith line "!self-profile-output:" = false := by simpa using hm'
  rcases hl : (strSplitOnChar line ';').map strTrim with _ | ⟨cnt, _ | ⟨u, _ | ⟨nm, _ | ⟨t, _ | ⟨pct, rest⟩⟩⟩⟩⟩ <;>
      rw [hl] at hrest <;> simp at hrest
  obtain ⟨⟨h1, h2⟩, h3⟩ := hrest
  have hc1 : (cnt == "<not supported>") = false := by simp [h1]
  have hc2 : (strLength cnt == 0) = false := by simp [h2]
  have hc3 : strStartsWith pct "100." = false := by simpa using h3
  refine ⟨nm, pct, ?_⟩
  unfold perfStatLine
  rw [if_neg (by simp [hm]), hl]
  simp [hc1, hc2, hc3]

/-- If any line qualifies, the line fold exits early with a fatal outcome. -/
lemma processLines_fatal : ∀ (ls : List String) (acc : Stats × Option String),
    ls.any isCounterPanicLine = true →
    ∃ r, processPerfStatLines ls acc = .inl r ∧ r.isFatalOutcome = true := by
  intro ls
  induction ls with
  | nil => intro acc h; cases h
  | cons l ls ih =>
    intro acc h
    rw [List.any_cons] at h
    unfold processPerfStatLines
    cases hstep : perfStatLine acc l with
    | inl r => exact ⟨r, rfl, perfStatLine_inl_fatal acc l r hstep⟩
    | inr acc2 =>
      rw [Bool.or_eq_true] at h
      rcases h with hl | hls
      · obtain ⟨n, p, heq⟩ := perfStatLine_panics acc l hl
        rw [heq] at hstep
        cases hstep
      · exact ih acc2 hls

/-- C4 (amended): whenever the output contains a counter-statistics line with
at least five fields, a usable count, and a percentage not starting `100.`,
`process_perf_stat_output` ends fatally — with the percentage panic, or with
the `ParseError` of an earlier line (on which the caller panics) — and in
particular never returns a `Stats` map and never the retryable `NoOutput`. -/
theorem c4_bad_pct_is_fatal (stdout : String)
    (h : (rustLines stdout).any isCounterPanicLine = true) :
    (processPerfStatOutput stdout).isFatalOutcome = true := by
  unfold processPerfStatOutput
  obtain ⟨r, heq, hf⟩ := processLines_fatal (rustLines stdout) (Stats.new, none) h
  rw [heq]
  exact hf

/-- C4 witness: a single qualifying line is fatal (indeed the panic). -/
theorem c4_witness :
    (rustLines "5;u;cycles;t;50.0").any isCounterPanicLine = true ∧
    (processPerfStatOutput "5;u;cycles;t;50.0").isFatalOutcome = true :=
  ⟨by decide, c4_bad_pct_is_fatal "5;u;cycles;t;50.0" (by decide)⟩

/-- C4 counterexample: `badPctAfterBadFloat` contains a qualifying bad-
percentage line (the second), yet the function does not panic: the first
line's count `"abc"` fails the float parse first and the function returns the
`ParseError` — so "fails fatally (panics)" is false as stated, though no
`Stats` map is returned. -/
theorem c4_counterexample :
    (rustLines badPctAfterBadFloat).any isCounterPanicLine = true ∧
    processPerfStatOutput badPctAfterBadFloat = .parseError "abc" ∧
    (PerfOut.parseError "abc").isPanic = false := by decide

lemma statsGetL_map_replace (k : StatId) (v : FVal) :
    ∀ l : StatList, l.any (fun p => p.1 == k) = true →
      statsGetL (l.map (fun p => if p.1 == k then (k, v) else p)) k = some v := by
  intro l
  induction l with
  | nil => intro h; cases h
  | cons p t ih =>
      intro h
      by_cases hp : (p.1 == k) = true
      · rw [List.map_cons, if_pos hp]
        unfold statsGetL
        rw [List.find?_cons_of_pos _ (by simp)]
        rfl
      · have hp' : (p.1 == k) = false := by simpa using hp
        have ht : t.any (fun p => p.1 == k) = true := by
          rw [List.any_cons, hp'] at h
          simpa using h
        rw [List.map_cons, if_neg hp]
        unfold statsGetL
        rw [List.find?_cons_of_neg _ (by simp [hp'])]
        exact ih ht

lemma find?_none_of_any_false (k : StatId) :
    ∀ l : StatList, l.any (fun p => p.1 == k) = false →
      List.find? (fun p => p.1 == k) l = none := by
  intro l
  induction l with
  | nil => intro _; rfl
  | cons p t ih =>
      intro h
      rw [List.any_cons] at h
      have hp : (p.1 == k) = false := by
        cases hb : (p.1 == k)
        · rfl
        · rw [hb] at h
          simp at h
      have ht : t.any (fun p => p.1 == k) = false := by
        rw [hp] at h
        simpa using h
      rw [List.find?_cons_of_neg _ (by simp [hp])]
      exact ih ht

lemma statsGetL_of_any_false (l : StatList) (k : StatId)
    (h : l.any (fun p => p.1 == k) = false) : statsGetL l k = none := by
  unfold statsGetL
  rw [find?_none_of_any_false k l h]
  rfl

lemma statsGetL_insert_self (l : StatList) (k : StatId) (v : FVal) :
    statsGetL (statsInsertL l k v) k = some v := by
  unfold statsInsertL
  by_cases h : l.any (fun p => p.1 == k) = true
  · rw [if_pos h]
    exact statsGetL_map_replace k v l h
  · rw [if_neg h]
    have h' : l.any (fun p => p.1 == k) = false := by
      cases hb : l.any (fun p => p.1 == k)
      · rfl
      · exact absurd hb h
    unfold statsGetL
    rw [List.find?_append, find?_none_of_any_false k l h', Option.none_or,
      List.find?_cons_of_pos _ (by simp)]
    rfl

lemma statsGetL_insert_other (l : StatList) (k2 : StatId) (v : FVal) (k : StatId)
    (hne : k2 ≠ k) :
    statsGetL (statsInsertL l k2 v) k = statsGetL l k := by
  unfold statsInsertL
  by_cases h : l.any (fun p => p.1 == k2) = true
  · rw [if_pos h]
    clear h
    induction l with
    | nil => rfl
    | cons p t ih =>
        by_cases hp : (p.1 == k2) = true
        · have hp1 : p.1 = k2 := eq_of_beq hp
          have hk2 : ((k2 : StatId) == k) = false := by
            cases hb : ((k2 : StatId) == k)
            · rfl
            · exact absurd (eq_of_beq hb) hne
          have hpk : (p.1 == k) = false := by rw [hp1]; exact hk2
          rw [List.map_cons, if_pos hp]
          unfold statsGetL
          rw [List.find?_cons_of_neg _ (by simp [hk2]),
            List.find?_cons_of_neg _ (by simp [hpk])]
          exact ih
        · rw [List.map_cons, if_neg hp]
          cases hb : (p.1 == k)
          · unfold statsGetL
            rw [List.find?_cons_of_neg _ (by simp [hb]),
              List.find?_cons_of_neg _ (by simp [hb])]
            exact ih
          · unfold statsGetL
            rw [List.find?_cons_of_pos _ (by simp [hb]),
              List.find?_cons_of_pos _ (by simp [hb])]
  · rw [if_neg h]
    cases hl : statsGetL l k with
    | some w =>
        unfold statsGetL at hl ⊢
        rw [List.find?_append]
        rcases hf : List.find? (fun p => p.1 == k) l with _ | q
        · rw [hf] at hl; cases hl
        · rw [hf, Option.or_some]
          rw [hf] at hl
          exact hl
    | none =>
        unfold statsGetL at hl ⊢
        rcases hf : List.find? (fun p => p.1 == k) l with _ | q
        · rw [List.find?_append, hf, Option.none_or]
          have hk2 : ((k2 : StatId) == k) = false := by
            cases hb : ((k2 : StatId) == k)
            · rfl
            · exact absurd (eq_of_beq hb) hne
          rw [List.find?_cons_of_neg _ (by simp [hk2])]
          rfl
        · rw [hf] at hl; cases hl

lemma statsGetStat_insert_self (s : Stats) (k : StatId) (v : FVal) :
    (s.insertStat k v).getStat k = some v :=
  statsGetL_insert_self s.toList k v

lemma statsGetStat_insert_other (s : Stats) (k2 : StatId) (v : FVal) (k : StatId)
    (hne : k2 ≠ k) : (s.insertStat k2 v).getStat k = s.getStat k :=
  statsGetL_insert_other s.toList k2 v k hne

/-- Folding `interpStatStep` over pairs whose keys all differ from `k` leaves
the entry at `k` unchanged. -/
lemma interpFold_getStat_skip (erun : Run) (d f : Nat) (k : StatId) :
    ∀ (l : StatList) (acc : Stats), (∀ q ∈ l, q.1 ≠ k) →
      (l.foldl (interpStatStep erun d f) acc).getStat k = acc.getStat k := by
  intro l
  induction l with
  | nil => intro acc _; rfl
  | cons p t ih =>
      intro acc h
      rw [List.foldl_cons, ih _ (fun q hq => h q (List.mem_cons_of_mem p hq))]
      have hne : p.1 ≠ k := h p (List.mem_cons_self p t)
      unfold interpStatStep
      cases herun : erun.getStat p.1 with
      | none => rfl
      | some estat => exact statsGetStat_insert_other acc p.1 _ k hne

/-- The central fold lemma: if the start run's statistics have unique names,
the statistic `k` has start value `sv`, and the end run has `k` at value `ev`,
then the folded map holds `interpValue sv ev d f` at `k`. -/
lemma interpFold_getStat (erun : Run) (d f : Nat) (k : StatId) (sv ev : FVal)
    (he : erun.getStat k = some ev) :
    ∀ (l : StatList) (acc : Stats),
      (l.map Prod.fst).Nodup → statsGetL l k = some sv →
      (l.foldl (interpStatStep erun d f) acc).getStat k
        = some (interpValue sv ev d f) := by
  intro l
  induction l with
  | nil =>
      intro acc _ hs
      cases hs
  | cons p t ih =>
      intro acc hnodup hs
      obtain ⟨pk, pv⟩ := p
      rw [List.foldl_cons]
      by_cases hp : (pk == k) = true
      · have hp1 : pk = k := eq_of_beq hp
        subst hp1
        have hsv : pv = sv := by
          unfold statsGetL at hs
          rw [List.find?_cons_of_pos _ (by simp)] at hs
          simpa using hs
        subst hsv
        have hk : ∀ q ∈ t, q.1 ≠ pk := by
          intro q hq hqk
          have hmem : q.1 ∈ t.map Prod.fst := List.mem_map_of_mem Prod.fst hq
          rw [List.map_cons] at hnodup
          exact (List.nodup_cons.mp hnodup).1 (by rw [← hqk]; exact hmem)
        rw [interpFold_getStat_skip erun d f pk t _ hk]
        unfold interpStatStep
        rw [show Run.getStat erun (pk, pv).1 = some ev from he]
        exact statsGetStat_insert_self acc pk _
      · have hp' : (pk == k) = false := by
          cases hb : (pk == k)
          · rfl
          · exact absurd hb hp
        have hs' : statsGetL t k = some sv := by
          unfold statsGetL at hs ⊢
          rw [List.find?_cons_of_neg _ (by simp [hp'])] at hs
          exact hs
        have hnodup' : (t.map Prod.fst).Nodup := by
          rw [List.map_cons] at hnodup
          exact (List.nodup_cons.mp hnodup).2
        exact ih _ hnodup' hs'

/-- C2 (amended): run-level hole filling calls the same `interpolate_stats`,
but with `distance = (commit_idx − start − 1) + (end − commit_idx − 1)` and
`from_start = commit_idx − start − 1` — not the benchmark-level
`distance = end − start`, `from_start = commit_idx − start`: each shared
statistic becomes `interpValue start_value end_value distance from_start`. -/
theorem c2_run_fill_offset_formula (bench : Benchmark) (rid : RunId) (i : Nat)
    (commit : Commit) (lm nm : List BenchMap) (si ei : Nat) (srun erun : Run)
    (k : StatId) (sv ev : FVal)
    (hstart : (benchMapGet (lm.getD i []) bench.name).bind
        (fun rm => runMapGet rm rid) = some (si, srun))
    (hstop : (benchMapGet (nm.getD i []) bench.name).bind
        (fun rm => runMapGet rm rid) = some (ei, erun))
    (hnodup : (srun.stats.toList.map Prod.fst).Nodup)
    (hs : srun.getStat k = some sv) (he : erun.getStat k = some ev) :
    (fillBenchmarkRuns bench [rid] i commit lm nm)
      = ({ bench with runs := bench.runs ++ [{ srun with stats := interpolateStats srun erun ((i - si - 1) + (ei - i - 1)) (i - si - 1) }] }, [(commit.sha, ⟨bench.name, some rid⟩)]) ∧
    ((fillBenchmarkRuns bench [rid] i commit lm nm).1.runs.getLast?.bind
        (fun r => r.getStat k))
      = some (interpValue sv ev ((i - si - 1) + (ei - i - 1)) (i - si - 1)) := by
  have hfold : fillBenchmarkRuns bench [rid] i commit lm nm
      = ({ bench with runs := bench.runs ++ [{ srun with stats := interpolateStats srun erun ((i - si - 1) + (ei - i - 1)) (i - si - 1) }] }, [(commit.sha, ⟨bench.name, some rid⟩)]) := by
    unfold fillBenchmarkRuns
    rw [List.foldl_cons, List.foldl_nil]
    simp only [fillRunStep]
    rw [hstart, hstop]
    simp
  refine ⟨hfold, ?_⟩
  rw [hfold]
  simp only [List.getLast?_concat, Option.some_bind]
  show (interpolateStats srun erun ((i - si - 1) + (ei - i - 1)) (i - si - 1)).getStat k = _
  unfold interpolateStats
  exact interpFold_getStat erun _ _ k sv ev he srun.stats.toList Stats.new hnodup hs

/-- C2 witness: neighbors at indices 0 and 2 around commit 1 — the code's
distance is 0 and `from_start` 0, and the `wall-time` 10/30 pair interpolates
to `interpValue 10 30 0 0`, which is NaN. -/
theorem c2_witness :
    ((benchMapGet ([[], [("foo", [(⟨false, false, BenchmarkState.clean⟩,
        (0, demoRunFull 10))])]].getD 1 []) "foo").bind
      (fun rm => runMapGet rm ⟨false, false, BenchmarkState.clean⟩)
        = some (0, demoRunFull 10)) ∧
    ((fillBenchmarkRuns ⟨"foo", []⟩ [⟨false, false, BenchmarkState.clean⟩] 1
        ⟨"sha2", demoDate⟩
        [[], [("foo", [(⟨false, false, BenchmarkState.clean⟩, (0, demoRunFull 10))])]]
        [[], [("foo", [(⟨false, false, BenchmarkState.clean⟩, (2, demoRunFull 30))])]]).1.runs.getLast?.bind
      (fun r => r.getStat "wall-time"))
      = some (interpValue (FVal.fin 10) (FVal.fin 30) ((1 - 0 - 1) + (2 - 1 - 1)) (1 - 0 - 1)) ∧
    interpValue (FVal.fin 10) (FVal.fin 30) ((1 - 0 - 1) + (2 - 1 - 1)) (1 - 0 - 1) = FVal.nan := by
  refine ⟨by decide, ?_, by decide⟩
  exact (c2_run_fill_offset_formula ⟨"foo", []⟩ ⟨false, false, BenchmarkState.clean⟩ 1
    ⟨"sha2", demoDate⟩
    [[], [("foo", [(⟨false, false, BenchmarkState.clean⟩, (0, demoRunFull 10))])]]
    [[], [("foo", [(⟨false, false, BenchmarkState.clean⟩, (2, demoRunFull 30))])]]
    0 2 (demoRunFull 10) (demoRunFull 30) "wall-time" (FVal.fin 10) (FVal.fin 30)
    (by decide) (by decide) (by decide) (by decide) (by decide)).2

/-! ### C8/C9: global properties of the interpolation pass -/

lemma foldl_fixed {α β : Type _} (f : β → α → β) (s : β) :
    ∀ (l : List α), (∀ x ∈ l, f s x = s) → l.foldl f s = s := by
  intro l
  induction l with
  | nil => intro _; rfl
  | cons a t ih =>
      intro h
      rw [List.foldl_cons, h a (List.mem_cons_self a t)]
      exact ih (fun x hx => h x (List.mem_cons_of_mem a hx))

/-- A commit whose entry covers all known runs of a benchmark is left alone by
the per-benchmark body. -/
lemma interpName_covers (data : List CommitData) (lm nm : List BenchMap) (i : Nat)
    (cd : CommitData) (name : BenchmarkName)
    (h : coversKnown data cd name = true) :
    interpName data lm nm i cd name = (cd, []) := by
  unfold coversKnown at h
  cases hlk : lookupBench cd.benchmarks name with
  | none => rw [hlk] at h; cases h
  | some res =>
    cases res with
    | err m => rw [hlk] at h; cases h
    | ok b =>
      rw [hlk] at h
      unfold interpName
      by_cases htry : cd.commit.isTry = true
      · rw [if_pos htry]
      · rw [if_neg htry]
        have hs1 : interpNameStep1 data i cd name = (cd, []) := by
          unfold interpNameStep1; rw [hlk]
        rw [hs1]
        have hmiss : (knownRuns data name).filter
            (fun rid => !(b.runs.any (fun r => Run.eqRunId r rid))) = [] := by
          rw [List.filter_eq_nil_iff]
          intro a ha
          have hc := List.all_eq_true.mp h a ha
          simp [hc]
        simp only [interpNameStep2]
        rw [hlk]
        simp [hmiss]

lemma interpCommit_covers (data : List CommitData) (lm nm : List BenchMap)
    (names : List BenchmarkName) (i : Nat) (cd : CommitData)
    (h : ∀ name ∈ names, coversKnown data cd name = true) :
    interpCommit data lm nm names i cd = (cd, []) := by
  unfold interpCommit
  apply foldl_fixed
  intro name hn
  simp [interpName_covers data lm nm i cd name (h name hn)]

lemma foldl_append_shape {α β γ : Type _} (f : α → β) (g : α → List γ) :
    ∀ (l : List α) (a : List β) (b : List γ),
      l.foldl (fun st x => (st.1 ++ [f x], st.2 ++ g x)) (a, b)
        = (a ++ l.map f, b ++ l.flatMap g) := by
  intro l
  induction l with
  | nil => intro a b; simp
  | cons x t ih =>
      intro a b
      rw [List.foldl_cons, ih]
      simp

/-- Closed form of the double fold in `interpolate`. -/
lemma interpolate_eq (data : List CommitData) :
    interpolate data =
      (data.enum.map (fun icd =>
        (interpCommit data (lastRunMaps data) (nextRunMaps data)
          (currentBenchmarks data) icd.1 icd.2).1),
       data.enum.flatMap (fun icd =>
        (interpCommit data (lastRunMaps data) (nextRunMaps data)
          (currentBenchmarks data) icd.1 icd.2).2)) := by
  unfold interpolate
  have h := foldl_append_shape
    (fun icd : Nat × CommitData =>
      (interpCommit data (lastRunMaps data) (nextRunMaps data)
        (currentBenchmarks data) icd.1 icd.2).1)
    (fun icd : Nat × CommitData =>
      (interpCommit data (lastRunMaps data) (nextRunMaps data)
        (currentBenchmarks data) icd.1 icd.2).2)
    data.enum [] []
  simpa using h

/-- C9: if every commit has a successful entry covering every run id known in
the 20-commit recency window, for every benchmark of the window, then the
interpolation pass records nothing and returns the dataset unchanged. -/
theorem c9_dense_identity (data : List CommitData) (h : denseInput data = true) :
    interpolate data = (data, []) := by
  rw [interpolate_eq]
  have hall := List.all_eq_true.mp h
  have hcov : ∀ icd ∈ data.enum,
      interpCommit data (lastRunMaps data) (nextRunMaps data)
        (currentBenchmarks data) icd.1 icd.2 = (icd.2, []) := by
    intro icd hmem
    obtain ⟨i, cd⟩ := icd
    obtain ⟨hlt, hx⟩ := List.mem_enum hmem
    have hmem2 : cd ∈ data := by rw [hx]; exact List.getElem_mem hlt
    exact interpCommit_covers data _ _ _ i cd
      (fun name hn => List.all_eq_true.mp (hall cd hmem2) name hn)
  have h1 : data.enum.map (fun icd =>
      (interpCommit data (lastRunMaps data) (nextRunMaps data)
        (currentBenchmarks data) icd.1 icd.2).1) = data := by
    rw [List.map_congr_left (fun a ha => by rw [hcov a ha] : ∀ a ∈ data.enum,
      (interpCommit data (lastRunMaps data) (nextRunMaps data)
        (currentBenchmarks data) a.1 a.2).1 = a.2)]
    exact List.enum_map_snd data
  have h2 : data.enum.flatMap (fun icd =>
      (interpCommit data (lastRunMaps data) (nextRunMaps data)
        (currentBenchmarks data) icd.1 icd.2).2) = [] := by
    rw [List.flatMap_eq_nil_iff]
    intro x hx
    rw [hcov x hx]
  rw [h1, h2]

/-- C9 witness: a dense single-commit dataset is returned unchanged with zero
records. -/
theorem c9_witness :
    denseInput denseDemoData = true ∧ interpolate denseDemoData = (denseDemoData, []) :=
  ⟨by decide, c9_dense_identity denseDemoData (by decide)⟩

lemma interpName_try (data : List CommitData) (lm nm : List BenchMap) (i : Nat)
    (cd : CommitData) (name : BenchmarkName) (htry : cd.commit.isTry = true) :
    interpName data lm nm i cd name = (cd, []) := by
  unfold interpName; rw [if_pos htry]

lemma interpCommit_try (data : List CommitData) (lm nm : List BenchMap)
    (names : List BenchmarkName) (i : Nat) (cd : CommitData)
    (htry : cd.commit.isTry = true) :
    interpCommit data lm nm names i cd = (cd, []) := by
  unfold interpCommit
  apply foldl_fixed
  intro name hn
  simp [interpName_try data lm nm i cd name htry]

lemma interpNameStep1_commit (data : List CommitData) (i : Nat) (cd : CommitData)
    (name : BenchmarkName) :
    (interpNameStep1 data i cd name).1.commit = cd.commit := by
  simp only [interpNameStep1]
  repeat' split
  all_goals rfl

lemma interpNameStep2_commit (data : List CommitData) (lm nm : List BenchMap)
    (i : Nat) (s1 : CommitData × List (Sha × Interpolation)) (name : BenchmarkName) :
    (interpNameStep2 data lm nm i s1 name).1.commit = s1.1.commit := by
  simp only [interpNameStep2]
  repeat' split
  all_goals rfl

lemma interpName_commit (data : List CommitData) (lm nm : List BenchMap) (i : Nat)
    (cd : CommitData) (name : BenchmarkName) :
    (interpName data lm nm i cd name).1.commit = cd.commit := by
  unfold interpName
  split
  · rfl
  · rw [interpNameStep2_commit, interpNameStep1_commit]

lemma fillBenchmarkData_recs (name : BenchmarkName) (i : Nat) (commit : Commit)
    (data : List CommitData) (present : List Nat) :
    ∀ r ∈ (fillBenchmarkData name i commit data present).2, r.1 = commit.sha := by
  intro r hr
  simp only [fillBenchmarkData] at hr
  repeat' split at hr
  all_goals simp_all

lemma fillRunStep_recs (i : Nat) (commit : Commit) (lm nm : List BenchMap)
    (acc : Benchmark × List (Sha × Interpolation)) (mr : RunId)
    (h : ∀ r ∈ acc.2, r.1 = commit.sha) :
    ∀ r ∈ (fillRunStep i commit lm nm acc mr).2, r.1 = commit.sha := by
  intro r hr
  simp only [fillRunStep] at hr
  repeat' split at hr
  all_goals try exact h r hr
  all_goals rcases List.mem_append.mp hr with h1 | h1
  all_goals first
    | exact h r h1
    | simp_all

lemma fillBenchmarkRuns_recs (bench : Benchmark) (missing : List RunId) (i : Nat)
    (commit : Commit) (lm nm : List BenchMap) :
    ∀ r ∈ (fillBenchmarkRuns bench missing i commit lm nm).2, r.1 = commit.sha := by
  suffices h : ∀ (missing : List RunId) (acc : Benchmark × List (Sha × Interpolation)),
      (∀ r ∈ acc.2, r.1 = commit.sha) →
      ∀ r ∈ (missing.foldl (fillRunStep i commit lm nm) acc).2, r.1 = commit.sha by
    exact h missing (bench, []) (by simp)
  intro missing
  induction missing with
  | nil => intro acc hacc; exact hacc
  | cons m t ih =>
      intro acc hacc
      rw [List.foldl_cons]
      exact ih _ (fillRunStep_recs i commit lm nm acc m hacc)

lemma interpNameStep1_recs (data : List CommitData) (i : Nat) (cd : CommitData)
    (name : BenchmarkName) :
    ∀ r ∈ (interpNameStep1 data i cd name).2, r.1 = cd.commit.sha := by
  intro r hr
  simp only [interpNameStep1] at hr
  split at hr
  all_goals try (exact absurd hr (List.not_mem_nil r))
  all_goals split at hr
  all_goals rename_i heq
  all_goals (
    have h2 := fillBenchmarkData_recs name i cd.commit data (presentCommits data name) r
    rw [heq] at h2
    exact h2 hr)

lemma interpNameStep2_recs (data : List CommitData) (lm nm : List BenchMap)
    (i : Nat) (s1 : CommitData × List (Sha × Interpolation)) (name : BenchmarkName)
    (h : ∀ r ∈ s1.2, r.1 = s1.1.commit.sha) :
    ∀ r ∈ (interpNameStep2 data lm nm i s1 name).2, r.1 = s1.1.commit.sha := by
  intro r hr
  simp only [interpNameStep2] at hr
  repeat' split at hr
  all_goals try exact h r hr
  rcases List.mem_append.mp hr with h1 | h1
  · exact h r h1
  · exact fillBenchmarkRuns_recs _ _ i s1.1.commit lm nm r h1

lemma interpName_recs (data : List CommitData) (lm nm : List BenchMap) (i : Nat)
    (cd : CommitData) (name : BenchmarkName) :
    ∀ r ∈ (interpName data lm nm i cd name).2, r.1 = cd.commit.sha := by
  intro r hr
  unfold interpName at hr
  split at hr
  · exact absurd hr (List.not_mem_nil r)
  · have hinner : ∀ r2 ∈ (interpNameStep1 data i cd name).2,
        r2.1 = (interpNameStep1 data i cd name).1.commit.sha := by
      intro r2 hr2
      rw [interpNameStep1_commit]
      exact interpNameStep1_recs data i cd name r2 hr2
    have h2 := interpNameStep2_recs data lm nm i (interpNameStep1 data i cd name)
      name hinner r hr
    rw [interpNameStep1_commit] at h2
    exact h2

/-- Invariant of the per-commit fold: the commit is preserved and every record
is keyed by its sha. -/
lemma interpCommit_spec (data : List CommitData) (lm nm : List BenchMap) (i : Nat) :
    ∀ (names : List BenchmarkName) (cd : CommitData)
      (recs : List (Sha × Interpolation)),
      (∀ r ∈ recs, r.1 = cd.commit.sha) →
      ((names.foldl (fun st name =>
          let r := interpName data lm nm i st.1 name
          (r.1, st.2 ++ r.2)) (cd, recs)).1.commit = cd.commit ∧
        ∀ r ∈ (names.foldl (fun st name =>
          let r := interpName data lm nm i st.1 name
          (r.1, st.2 ++ r.2)) (cd, recs)).2, r.1 = cd.commit.sha) := by
  intro names
  induction names with
  | nil => intro cd recs h; exact ⟨rfl, h⟩
  | cons n t ih =>
      intro cd recs h
      rw [List.foldl_cons]
      have hrecs : ∀ r ∈ recs ++ (interpName data lm nm i cd n).2,
          r.1 = (interpName data lm nm i cd n).1.commit.sha := by
        intro r hr
        rw [interpName_commit]
        rcases List.mem_append.mp hr with h1 | h1
        · exact h r h1
        · exact interpName_recs data lm nm i cd n r h1
      have hmain := ih (interpName data lm nm i cd n).1
        (recs ++ (interpName data lm nm i cd n).2) hrecs
      rw [interpName_commit] at hmain
      exact hmain

/-- Every record of the pass is keyed by the sha of a non-try commit of the
dataset. -/
lemma interpolate_recs (data : List CommitData) :
    ∀ r ∈ (interpolate data).2, ∃ j cdj, data.get? j = some cdj ∧
      cdj.commit.isTry = false ∧ r.1 = cdj.commit.sha := by
  intro r hr
  rw [interpolate_eq] at hr
  rw [List.mem_flatMap] at hr
  obtain ⟨icd, hmem, hrin⟩ := hr
  obtain ⟨j, cdj⟩ := icd
  obtain ⟨hlt, hx⟩ := List.mem_enum hmem
  refine ⟨j, cdj, ?_, ?_, ?_⟩
  · rw [List.get?_eq_getElem?, List.getElem?_eq_getElem hlt, hx]
  · by_contra hne
    rw [Bool.not_eq_false] at hne
    rw [interpCommit_try data _ _ _ j cdj hne] at hrin
    exact absurd hrin (List.not_mem_nil r)
  · have h2 : ∀ r2 ∈ (interpCommit data (lastRunMaps data) (nextRunMaps data)
        (currentBenchmarks data) j cdj).2, r2.1 = cdj.commit.sha :=
      (interpCommit_spec data (lastRunMaps data) (nextRunMaps data) j
        (currentBenchmarks data) cdj [] (by simp)).2
    exact h2 r hrin

/-- C8: a try commit (sentinel date 2000-01-01) is never an interpolation
target: its entry in the interpolated dataset is its measured entry, and no
record is keyed by its sha (shas are pairwise distinct, as `from_fs`
guarantees by deduplication). -/
theorem c8_try_commits_untouched (data : List CommitData) (i : Nat) (cd : CommitData)
    (hget : data.get? i = some cd) (htry : cd.commit.isTry = true)
    (hnodup : (data.map (fun c => c.commit.sha)).Nodup) :
    (interpolate data).1.get? i = some cd ∧
    (interpolate data).2.filter (fun r => r.1 == cd.commit.sha) = [] := by
  constructor
  · rw [interpolate_eq]
    rw [List.get?_map, List.get?_enum, hget]
    simp [interpCommit_try data _ _ _ i cd htry]
  · rw [List.filter_eq_nil_iff]
    intro r hr hbeq
    obtain ⟨j, cdj, hgetj, htryj, hsha⟩ := interpolate_recs data r hr
    have hsha2 : cdj.commit.sha = cd.commit.sha := by
      rw [← hsha]
      exact eq_of_beq hbeq
    have hj : (data.map (fun c => c.commit.sha)).get? j = some cd.commit.sha := by
      rw [List.get?_map, hgetj]
      simp [hsha2]
    have hi : (data.map (fun c => c.commit.sha)).get? i = some cd.commit.sha := by
      rw [List.get?_map, hget]
      rfl
    have hjlt : j < (data.map (fun c => c.commit.sha)).length := by
      rcases List.get?_eq_some.mp hj with ⟨hl, _⟩
      exact hl
    have hij : j = i := List.get?_inj hjlt hnodup (hj.trans hi.symm)
    rw [hij, hget] at hgetj
    cases hgetj
    rw [htry] at htryj
    cases htryj

/-- C8 witness: a two-commit dataset whose second commit is try-dated. -/
theorem c8_witness :
    tryDemoData.get? 1 = some ⟨⟨"shaB", ⟨2000, 1, 1⟩⟩, []⟩ ∧
    (⟨⟨"shaB", ⟨2000, 1, 1⟩⟩, []⟩ : CommitData).commit.isTry = true ∧
    (tryDemoData.map (fun c => c.commit.sha)).Nodup ∧
    (interpolate tryDemoData).1.get? 1 = some ⟨⟨"shaB", ⟨2000, 1, 1⟩⟩, []⟩ ∧
    (interpolate tryDemoData).2.filter
      (fun r => r.1 == (⟨⟨"shaB", ⟨2000, 1, 1⟩⟩, []⟩ : CommitData).commit.sha) = [] := by
  refine ⟨by decide, by decide, by decide, ?_, ?_⟩
  · exact (c8_try_commits_untouched tryDemoData 1 _ (by decide) (by decide) (by decide)).1
  · exact (c8_try_commits_untouched tryDemoData 1 _ (by decide) (by decide) (by decide)).2
